import Mathlib

/-!
Verification of the supabase-csv-upsert CLI (the enhanced variant with the
structural analyzer, src/unnamed/part_001 lines 105-299).

The file content is modelled after tokenization: both parsing passes call the
CSV library on the same file content with the identical delimiter, quote and
escape configuration and with blank lines skipped, so both see the same
`rows : List (List String)` (row 0 is the header).  The remote upsert service
is an oracle `upsertOk : Nat → Bool` giving the outcome of the call for each
zero-based batch index.
-/

namespace SupabaseUpsert

/-- A typed cell value produced by the typed-parse pass.  Numeric cells keep
their literal text: no claim depends on the numeric value itself, only on
which constructor a cell maps to. -/
inductive Value where
  | str : String → Value
  | num : String → Value
  | bool : Bool → Value
  | null : Value
  deriving Repr, DecidableEq

/-- A Record maps field names (taken from the header row) to typed values. -/
abbrev Record := List (String × Value)

/-- A typed-parse error.  With header mode on, the CSV library reports a
field-count mismatch for every data row whose cell count differs from the
header length (codes TooFewFields / TooManyFields). -/
inductive ParseError where
  | fieldMismatch (expected found rowIndex : Nat)
  deriving Repr, DecidableEq

/-- Result of the typed-parse pass: `\x7b data, errors \x7d`. -/
structure ParseResult where
  data : List Record
  errors : List ParseError
  deriving Repr, DecidableEq

/-- Result of the structural validation loop in `analyzeErrors`
(part_001 lines 136-150). -/
structure AnalyzeResult where
  validRows : Nat
  invalidRows : Nat
  problemRows : List Nat
  deriving Repr, DecidableEq

/-- Observable outcome of one `upsertCsv` run: the batches submitted to the
remote service in order, the accumulated success count, the total record
count, the process exit status, and whether the final summary line was
printed. -/
structure RunResult where
  upsertCalls : List (List Record)
  successCount : Nat
  totalRecords : Nat
  exitCode : Nat
  summaryEmitted : Bool
  deriving Repr, DecidableEq

/-- The mutable state `analyzeErrors` receives from `upsertCsv`: the typed
parser record list and its error list. -/
structure PipeState where
  data : List Record
  errors : List ParseError
  deriving Repr, DecidableEq

/-- Modelled from the spec: the dynamic typing of the underlying CSV library
(an external dependency, not in src/): boolean-looking strings become
booleans, numeric-looking strings become numbers, everything else stays a
string. -/
def dynamicType (s : String) : Value :=
  if s = "true" ∨ s = "TRUE" then Value.bool true
  else if s = "false" ∨ s = "FALSE" then Value.bool false
  else if s.length > 0 ∧ s.all (fun c => c.isDigit) then Value.num s
  else Value.str s

/-- The cell transform of the typed-parse pass (part_001 line 209): a cell
that is exactly the empty string becomes null, every other cell goes through
the library dynamic typing (which leaves null unchanged). -/
def coerceCell (s : String) : Value :=
  if s = "" then Value.null else dynamicType s

/-- Modelled from the spec: header-inferred record construction of the
underlying CSV library.  Each cell is paired with the header name at its
position; cells beyond the header length are collected under the
`__parsed_extra` key.  Every cell goes through `coerceCell`. -/
def mkRecord (header row : List String) : Record :=
  (header.zip row).map (fun p => (p.1, coerceCell p.2)) ++
    (row.drop header.length).map (fun c => ("__parsed_extra", coerceCell c))

/-- Modelled from the spec: the typed-parse pass (part_001 lines 205-213),
`Papa.parse` with `header: true`, the empty-to-null transform and dynamic
typing.  Row 0 supplies the field names; each data row becomes one Record;
a field-count mismatch on data row `i` (file row index `i + 1`) is reported
as a parse error. -/
def papaParseTyped (rows : List (List String)) : ParseResult :=
  match rows with
  | [] => { data := [], errors := [] }
  | header :: dataRows =>
    { data := dataRows.map (mkRecord header)
      errors := dataRows.enum.filterMap (fun p =>
        if p.2.length = header.length then none
        else some (ParseError.fieldMismatch header.length p.2.length (p.1 + 1))) }

/-- One iteration of the validation loop of `analyzeErrors`
(part_001 lines 140-150): the pair carries the file row index and the row.
A row is valid iff its cell count equals the header cell count; otherwise it
is counted invalid and its index is retained while fewer than 3 problem rows
have been stored. -/
def analyzeStep (headerLen : Nat) (acc : AnalyzeResult) (p : Nat × List String) :
    AnalyzeResult :=
  if p.2.length = headerLen then
    { acc with validRows := acc.validRows + 1 }
  else
    { validRows := acc.validRows
      invalidRows := acc.invalidRows + 1
      problemRows :=
        if acc.problemRows.length < 3 then acc.problemRows ++ [p.1]
        else acc.problemRows }

/-- The structural validation pass of `analyzeErrors` (part_001 lines
129-150): row 0 is the header, every later row is checked against the header
cell count; the loop index `i` starts at 1.  On an empty tokenized file the
real code dereferences an undefined header and throws; that path is handled
in `upsertCsv` below, so the empty case here is arbitrary. -/
def csvStructureAnalyze (rows : List (List String)) : AnalyzeResult :=
  match rows with
  | [] => { validRows := 0, invalidRows := 0, problemRows := [] }
  | header :: dataRows =>
    (dataRows.enum.map (fun p => (p.1 + 1, p.2))).foldl
      (analyzeStep header.length) { validRows := 0, invalidRows := 0, problemRows := [] }

/-- Model of `analyzeErrors` (part_001 lines 118-189) as a state transformer: it
re-parses the file without header mode, runs the structural loop, and - its
only mutation - clears the caller error array when `invalidRows === 0`
(lines 185-188).  It returns the analysis together with the updated state. -/
def analyzeErrorsRun (rows : List (List String)) (s : PipeState) :
    AnalyzeResult × PipeState :=
  let analysis := csvStructureAnalyze rows
  (analysis,
   { data := s.data
     errors := if analysis.invalidRows = 0 then [] else s.errors })

/-- Recursion worker for `batches`: `fuel` is a structural bound on the
number of slices; `batches` below passes the list length, which suffices for
every positive batch size since each slice removes at least one element. -/
def batchesAux (b : Nat) (fuel : Nat) (l : List α) : List (List α) :=
  match l, fuel with
  | [], _ => []
  | _ :: _, 0 => []
  | x :: xs, fuel + 1 =>
    if b = 0 then []
    else (x :: xs).take b :: batchesAux b fuel ((x :: xs).drop b)

/-- The batching of `upsertCsv` (part_001 lines 234-235):
`for (i = 0; i < n; i += batchSize) batch = data.slice(i, i + batchSize)`.
With `b = 0` the source loop never advances; the claims all assume
`batchSize ≥ 1`, and that case is mapped to the empty list so that the
function is total. -/
def batches (l : List α) (b : Nat) : List (List α) :=
  batchesAux b l.length l

/-- The success accumulation of the batch loop (part_001 lines 246-251):
batch `i` (zero-based) adds its length to `successCount` exactly when its
upsert call returned no error; a failed batch adds nothing and the loop
moves on. -/
def successCountOf (bs : List (List Record)) (upsertOk : Nat → Bool) : Nat :=
  bs.enum.foldl (fun acc p => if upsertOk p.1 then acc + p.2.length else acc) 0

/-- Model of `upsertCsv` (part_001 lines 199-259).  The typed parse and the call to
`analyzeErrors` always run; then: if the (possibly cleared) error list is
non-empty the process exits with status 1 (line 222) before any upsert; if
the record list is empty the function returns normally (lines 225-228,
process exit 0, no summary); otherwise every batch is submitted exactly once
in order, successes accumulate, the summary line is printed and the process
exits 0.  On an empty tokenized file `analyzeErrors` throws (undefined
header) and the catch block exits 1 (lines 255-258). -/
def upsertCsv (rows : List (List String)) (batchSize : Nat)
    (upsertOk : Nat → Bool) : RunResult :=
  match rows with
  | [] =>
    { upsertCalls := [], successCount := 0, totalRecords := 0,
      exitCode := 1, summaryEmitted := false }
  | header :: dataRows =>
    let parseResult := papaParseTyped (header :: dataRows)
    let afterAnalyze :=
      analyzeErrorsRun (header :: dataRows)
        { data := parseResult.data, errors := parseResult.errors }
    if (afterAnalyze.2.errors).length > 0 then
      { upsertCalls := [], successCount := 0,
        totalRecords := parseResult.data.length,
        exitCode := 1, summaryEmitted := false }
    else if parseResult.data.length = 0 then
      { upsertCalls := [], successCount := 0, totalRecords := 0,
        exitCode := 0, summaryEmitted := false }
    else
      let bs := batches parseResult.data batchSize
      { upsertCalls := bs
        successCount := successCountOf bs upsertOk
        totalRecords := parseResult.data.length
        exitCode := 0
        summaryEmitted := true }

/-- The iteration count of the loop header
`for (i = 0; i < n; i += batchSize)`: one iteration for every index value
below `n`.  The guard `0 < b` mirrors that the source loop never terminates
for batch size 0. -/
def loopIters (n b i : Nat) : Nat :=
  if h : i < n ∧ 0 < b then loopIters n b (i + b) + 1 else 0
termination_by n - i
decreasing_by omega

/-- JavaScript falsiness of an optional environment string: absent or empty
counts as missing (`!supabaseUrl`). -/
def isFalsyEnv (v : Option String) : Bool :=
  match v with
  | none => true
  | some s => s = ""

/-- Observable file-system and pipeline events of the CLI action, in order. -/
inductive CliEvent where
  | fileExistenceCheck
  | fileRead
  deriving Repr, DecidableEq

/-- Outcome of the CLI action front-end: the ordered file events and the
process exit status. -/
structure CliResult where
  events : List CliEvent
  exitCode : Nat
  deriving Repr, DecidableEq

/-- The commander action (part_001 lines 269-297): read both environment
variables first and exit 1 when either is missing, before any file access;
then resolve the path and check existence (exit 1 when absent); then read
and process the file via `upsertCsv`. -/
def cliAction (supabaseUrl supabaseKey : Option String) (fileExists : Bool)
    (rows : List (List String)) (batchSize : Nat) (upsertOk : Nat → Bool) :
    CliResult :=
  if isFalsyEnv supabaseUrl || isFalsyEnv supabaseKey then
    { events := [], exitCode := 1 }
  else if ¬ fileExists then
    { events := [CliEvent.fileExistenceCheck], exitCode := 1 }
  else
    { events := [CliEvent.fileExistenceCheck, CliEvent.fileRead]
      exitCode := (upsertCsv rows batchSize upsertOk).exitCode }

/-- Scenario C input: 125 identical one-column data rows under header `id`
(125 valid records). -/
def rows125 : List (List String) := ["id"] :: List.replicate 125 ["1"]

/-- The upsert oracle of Scenario C: every call succeeds except the second
one (zero-based batch index 1). -/
def secondBatchFails : Nat → Bool := fun i => i != 1

theorem batchesAux_nil (b n : Nat) : batchesAux b n ([] : List α) = [] := by
  cases n <;> rfl

theorem batchesAux_congr (b : Nat) :
    ∀ (n m : Nat) (l : List α), l.length ≤ n → l.length ≤ m →
      batchesAux b n l = batchesAux b m l := by
  intro n
  induction n with
  | zero =>
    intro m l hn hm
    have : l = [] := List.eq_nil_of_length_eq_zero (Nat.le_zero.mp hn)
    subst this
    rw [batchesAux_nil, batchesAux_nil]
  | succ n ih =>
    intro m l hn hm
    match l with
    | [] => rw [batchesAux_nil, batchesAux_nil]
    | x :: xs =>
      match m with
      | 0 => simp at hm
      | m + 1 =>
        show (if b = 0 then [] else _) = (if b = 0 then [] else _)
        by_cases hb : b = 0
        · rw [if_pos hb, if_pos hb]
        · rw [if_neg hb, if_neg hb]
          have hlen : ((x :: xs).drop b).length ≤ n := by
            simp only [List.length_drop, List.length_cons]
            simp at hn
            omega
          have hlen2 : ((x :: xs).drop b).length ≤ m := by
            simp only [List.length_drop, List.length_cons]
            simp at hm
            omega
          rw [ih m ((x :: xs).drop b) hlen hlen2]

theorem batches_nil (b : Nat) : batches ([] : List α) b = [] := rfl

theorem batches_cons (x : α) (xs : List α) (b : Nat) (hb : b ≠ 0) :
    batches (x :: xs) b = (x :: xs).take b :: batches ((x :: xs).drop b) b := by
  show batchesAux b (xs.length + 1) (x :: xs) = _
  show (if b = 0 then [] else _) = _
  rw [if_neg hb]
  unfold batches
  rw [batchesAux_congr b xs.length ((x :: xs).drop b).length ((x :: xs).drop b)
    (by simp only [List.length_drop, List.length_cons]; omega) le_rfl]

theorem batches_flatten (b : Nat) (hb : 0 < b) :
    ∀ (fuel : Nat) (l : List α), l.length ≤ fuel → (batches l b).flatten = l := by
  intro fuel
  induction fuel with
  | zero =>
    intro l hl
    have : l = [] := List.eq_nil_of_length_eq_zero (Nat.le_zero.mp hl)
    subst this
    rw [batches_nil]
    rfl
  | succ n ih =>
    intro l hl
    match l with
    | [] => rw [batches_nil]; rfl
    | x :: xs =>
      rw [batches_cons x xs b (Nat.pos_iff_ne_zero.mp hb)]
      rw [List.flatten_cons]
      rw [ih ((x :: xs).drop b) (by simp only [List.length_drop]; simp at hl ⊢; omega)]
      exact List.take_append_drop b (x :: xs)

theorem ceil_step (m b : Nat) (hb : 0 < b) (hm : 0 < m) :
    (m + b - 1) / b = (m - b + b - 1) / b + 1 := by
  have h1 : m + b - 1 = (m - 1) + b := by omega
  rw [h1, Nat.add_div_right _ hb]
  by_cases hmb : m ≤ b
  · have h2 : m - b + b - 1 = b - 1 := by omega
    rw [h2, Nat.div_eq_of_lt (by omega), Nat.div_eq_of_lt (by omega)]
  · have h3 : m - b + b - 1 = (m - 1 - b) + b := by omega
    rw [h3, Nat.add_div_right _ hb]
    have h4 : m - 1 = (m - 1 - b) + b := by omega
    conv_lhs => rw [h4]
    rw [Nat.add_div_right _ hb]

theorem batches_length (b : Nat) (hb : 0 < b) :
    ∀ (fuel : Nat) (l : List α), l.length ≤ fuel →
      (batches l b).length = (l.length + b - 1) / b := by
  intro fuel
  induction fuel with
  | zero =>
    intro l hl
    have : l = [] := List.eq_nil_of_length_eq_zero (Nat.le_zero.mp hl)
    subst this
    rw [batches_nil]
    simp [Nat.div_eq_of_lt (show b - 1 < b by omega)]
  | succ n ih =>
    intro l hl
    match l with
    | [] =>
      rw [batches_nil]
      simp [Nat.div_eq_of_lt (show b - 1 < b by omega)]
    | x :: xs =>
      rw [batches_cons x xs b (Nat.pos_iff_ne_zero.mp hb)]
      rw [List.length_cons, ih ((x :: xs).drop b)
        (by simp only [List.length_drop]; simp at hl ⊢; omega)]
      rw [List.length_drop]
      exact (ceil_step (x :: xs).length b hb (by simp)).symm

theorem batches_mem_size (b : Nat) (hb : 0 < b) :
    ∀ (fuel : Nat) (l : List α), l.length ≤ fuel →
      ∀ c ∈ batches l b, c.length ≤ b ∧ c ≠ [] := by
  intro fuel
  induction fuel with
  | zero =>
    intro l hl c hc
    have : l = [] := List.eq_nil_of_length_eq_zero (Nat.le_zero.mp hl)
    subst this
    rw [batches_nil] at hc
    exact absurd hc (List.not_mem_nil c)
  | succ n ih =>
    intro l hl c hc
    match l with
    | [] =>
      rw [batches_nil] at hc
      exact absurd hc (List.not_mem_nil c)
    | x :: xs =>
      rw [batches_cons x xs b (Nat.pos_iff_ne_zero.mp hb)] at hc
      rcases List.mem_cons.mp hc with h | h
      · subst h
        constructor
        · simp only [List.length_take]
          exact min_le_left _ _
        · have : 0 < ((x :: xs).take b).length := by
            simp only [List.length_take]
            simp
            omega
          exact List.length_pos.mp this
      · exact ih ((x :: xs).drop b)
          (by simp only [List.length_drop]; simp at hl ⊢; omega) c h

theorem batches_dropLast_size (b : Nat) (hb : 0 < b) :
    ∀ (fuel : Nat) (l : List α), l.length ≤ fuel →
      ∀ c ∈ (batches l b).dropLast, c.length = b := by
  intro fuel
  induction fuel with
  | zero =>
    intro l hl c hc
    have : l = [] := List.eq_nil_of_length_eq_zero (Nat.le_zero.mp hl)
    subst this
    rw [batches_nil] at hc
    exact absurd hc (List.not_mem_nil c)
  | succ n ih =>
    intro l hl c hc
    match l with
    | [] =>
      rw [batches_nil] at hc
      exact absurd hc (List.not_mem_nil c)
    | x :: xs =>
      rw [batches_cons x xs b (Nat.pos_iff_ne_zero.mp hb)] at hc
      match hrest : batches ((x :: xs).drop b) b with
      | [] =>
        rw [hrest] at hc
        simp at hc
      | r :: rs =>
        rw [hrest] at hc
        rw [List.dropLast_cons₂] at hc
        rcases List.mem_cons.mp hc with h | h
        · subst h
          have hdrop : (x :: xs).drop b ≠ [] := by
            intro he
            rw [he, batches_nil] at hrest
            exact absurd hrest.symm (List.cons_ne_nil r rs)
          have hlen : b < (x :: xs).length := by
            by_contra hge
            push_neg at hge
            exact hdrop (List.drop_eq_nil_of_le hge)
          simp only [List.length_take]
          omega
        · have := ih ((x :: xs).drop b)
            (by simp only [List.length_drop]; simp at hl ⊢; omega) c
          rw [hrest] at this
          exact this h

/-- C2: the batching loop partitions any non-empty record list with
`batchSize ≥ 1` into `ceil(n / batchSize)` consecutive batches, every batch
except possibly the last has exactly `batchSize` records, every batch is
non-empty and at most `batchSize` long, and the concatenation of the batches
is the original list (order preserved, nothing lost or duplicated). -/
theorem batching_partition_correct (l : List Record) (b : Nat)
    (hne : l ≠ []) (hb : 1 ≤ b) :
    (batches l b).length = (l.length + b - 1) / b
    ∧ (batches l b).flatten = l
    ∧ (∀ c ∈ (batches l b).dropLast, c.length = b)
    ∧ (∀ c ∈ batches l b, c.length ≤ b ∧ c ≠ []) := by
  refine ⟨batches_length b hb l.length l le_rfl,
          batches_flatten b hb l.length l le_rfl,
          batches_dropLast_size b hb l.length l le_rfl,
          batches_mem_size b hb l.length l le_rfl⟩

/-- Witness for C2 at a concrete input: 5 records, batch size 2. -/
theorem batching_partition_correct_witness :
    ([[("a", Value.null)], [("b", Value.null)], [("c", Value.null)],
      [("d", Value.null)], [("e", Value.null)]] : List Record) ≠ []
    ∧ (1 : Nat) ≤ 2
    ∧ (batches ([[("a", Value.null)], [("b", Value.null)], [("c", Value.null)],
        [("d", Value.null)], [("e", Value.null)]] : List Record) 2).length
        = (5 + 2 - 1) / 2 := by
  refine ⟨by decide, by decide, ?_⟩
  have h := batching_partition_correct
    [[("a", Value.null)], [("b", Value.null)], [("c", Value.null)],
     [("d", Value.null)], [("e", Value.null)]] 2 (by decide) (by decide)
  simpa using h.1

theorem analyzeStep_foldl (H : Nat) :
    ∀ (ps : List (Nat × List String)) (acc : AnalyzeResult),
      acc.problemRows.length = min acc.invalidRows 3 →
      (ps.foldl (analyzeStep H) acc).validRows
          = acc.validRows + (ps.filter (fun p => p.2.length == H)).length
      ∧ (ps.foldl (analyzeStep H) acc).invalidRows
          = acc.invalidRows + (ps.filter (fun p => p.2.length != H)).length
      ∧ (ps.foldl (analyzeStep H) acc).problemRows
          = acc.problemRows ++
            ((ps.filter (fun p => p.2.length != H)).map Prod.fst).take
              (3 - acc.problemRows.length) := by
  intro ps
  induction ps with
  | nil =>
    intro acc hinv
    simp
  | cons p ps ih =>
    intro acc hinv
    by_cases h : p.2.length = H
    · have hstep : analyzeStep H acc p = { acc with validRows := acc.validRows + 1 } := by
        simp [analyzeStep, h]
      have hfilter_eq : (p :: ps).filter (fun q => q.2.length == H)
          = p :: ps.filter (fun q => q.2.length == H) := by
        simp [List.filter_cons, h]
      have hfilter_ne : (p :: ps).filter (fun q => q.2.length != H)
          = ps.filter (fun q => q.2.length != H) := by
        simp [List.filter_cons, h]
      have ihx := ih { acc with validRows := acc.validRows + 1 } (by simpa using hinv)
      rw [List.foldl_cons, hstep, hfilter_eq, hfilter_ne]
      refine ⟨?_, ?_, ?_⟩
      · rw [ihx.1]; simp [List.length_cons]; omega
      · rw [ihx.2.1]
      · rw [ihx.2.2]
    · have hstep : analyzeStep H acc p =
          { validRows := acc.validRows
            invalidRows := acc.invalidRows + 1
            problemRows :=
              if acc.problemRows.length < 3 then acc.problemRows ++ [p.1]
              else acc.problemRows } := by
        simp [analyzeStep, h]
      have hfilter_eq : (p :: ps).filter (fun q => q.2.length == H)
          = ps.filter (fun q => q.2.length == H) := by
        simp [List.filter_cons, h]
      have hfilter_ne : (p :: ps).filter (fun q => q.2.length != H)
          = p :: ps.filter (fun q => q.2.length != H) := by
        simp [List.filter_cons, h]
      rw [List.foldl_cons, hstep, hfilter_eq, hfilter_ne]
      by_cases hlt : acc.problemRows.length < 3
      · have hinv' : (acc.problemRows ++ [p.1]).length = min (acc.invalidRows + 1) 3 := by
          simp only [List.length_append, List.length_cons, List.length_nil]
          omega
        have ihx := ih
          { validRows := acc.validRows
            invalidRows := acc.invalidRows + 1
            problemRows := acc.problemRows ++ [p.1] } (by simpa using hinv')
        simp only [if_pos hlt]
        refine ⟨by simpa using ihx.1, by simp at ihx ⊢; omega, ?_⟩
        have h3 : 3 - acc.problemRows.length = (3 - (acc.problemRows ++ [p.1]).length) + 1 := by
          simp only [List.length_append, List.length_cons, List.length_nil]
          omega
        rw [ihx.2.2]
        simp only [List.map_cons, h3, List.take_succ_cons, List.length_append]
        simp
      · have hinv' : acc.problemRows.length = min (acc.invalidRows + 1) 3 := by
          omega
        have ihx := ih
          { validRows := acc.validRows
            invalidRows := acc.invalidRows + 1
            problemRows := acc.problemRows } (by simpa using hinv')
        simp only [if_neg hlt]
        refine ⟨by simpa using ihx.1, by simp at ihx ⊢; omega, ?_⟩
        have h3 : 3 - acc.problemRows.length = 0 := by omega
        rw [ihx.2.2]
        simp [h3]

theorem csvAnalyze_char (header : List String) (dataRows : List (List String)) :
    (csvStructureAnalyze (header :: dataRows)).invalidRows
        = ((dataRows.enum.map (fun p => (p.1 + 1, p.2))).filter
            (fun p => p.2.length != header.length)).length
    ∧ (csvStructureAnalyze (header :: dataRows)).validRows
        = ((dataRows.enum.map (fun p => (p.1 + 1, p.2))).filter
            (fun p => p.2.length == header.length)).length
    ∧ (csvStructureAnalyze (header :: dataRows)).problemRows
        = (((dataRows.enum.map (fun p => (p.1 + 1, p.2))).filter
            (fun p => p.2.length != header.length)).map Prod.fst).take 3
    ∧ (csvStructureAnalyze (header :: dataRows)).problemRows.length
        = min (csvStructureAnalyze (header :: dataRows)).invalidRows 3
    ∧ ((∀ r ∈ dataRows, r.length = header.length) →
        (csvStructureAnalyze (header :: dataRows)).invalidRows = 0
        ∧ (csvStructureAnalyze (header :: dataRows)).problemRows = []) := by
  have hfold := analyzeStep_foldl header.length
    (dataRows.enum.map (fun p => (p.1 + 1, p.2)))
    { validRows := 0, invalidRows := 0, problemRows := [] } (by simp)
  have hdef : csvStructureAnalyze (header :: dataRows)
      = (dataRows.enum.map (fun p => (p.1 + 1, p.2))).foldl
          (analyzeStep header.length)
          { validRows := 0, invalidRows := 0, problemRows := [] } := rfl
  have hinv : (csvStructureAnalyze (header :: dataRows)).invalidRows
      = ((dataRows.enum.map (fun p => (p.1 + 1, p.2))).filter
          (fun p => p.2.length != header.length)).length := by
    rw [hdef, hfold.2.1]
    simp
  have hval : (csvStructureAnalyze (header :: dataRows)).validRows
      = ((dataRows.enum.map (fun p => (p.1 + 1, p.2))).filter
          (fun p => p.2.length == header.length)).length := by
    rw [hdef, hfold.1]
    simp
  have hprob : (csvStructureAnalyze (header :: dataRows)).problemRows
      = (((dataRows.enum.map (fun p => (p.1 + 1, p.2))).filter
          (fun p => p.2.length != header.length)).map Prod.fst).take 3 := by
    rw [hdef, hfold.2.2]
    simp
  refine ⟨hinv, hval, hprob, ?_, ?_⟩
  · rw [hprob, hinv]
    simp [List.length_take, min_comm]
  · intro hall
    have hnil : (dataRows.enum.map (fun p => (p.1 + 1, p.2))).filter
        (fun p => p.2.length != header.length) = [] := by
      rw [List.filter_eq_nil]
      intro p hp
      rcases List.mem_map.mp hp with ⟨q, hq, hpq⟩
      have hqmem : q.2 ∈ dataRows := List.snd_mem_of_mem_enum hq
      have : q.2.length = header.length := hall q.2 hqmem
      subst hpq
      simp [this]
    refine ⟨?_, ?_⟩
    · rw [hinv, hnil]; rfl
    · rw [hprob, hnil]; rfl

/-- C6: for every tokenized file with a header row, the analyzer counts
exactly the data rows whose cell count differs from the header length,
`problemRows` holds the first-encountered mismatched file row indices
(indices start at 1 for the first data row) capped at 3, its length is
`min k 3`, and when every row matches the header the counts are zero and
`problemRows` is empty. -/
theorem analyzer_counts_correct (header : List String) (dataRows : List (List String)) :
    (csvStructureAnalyze (header :: dataRows)).invalidRows
        = ((dataRows.enum.map (fun p => (p.1 + 1, p.2))).filter
            (fun p => p.2.length != header.length)).length
    ∧ (csvStructureAnalyze (header :: dataRows)).validRows
        = ((dataRows.enum.map (fun p => (p.1 + 1, p.2))).filter
            (fun p => p.2.length == header.length)).length
    ∧ (csvStructureAnalyze (header :: dataRows)).problemRows
        = (((dataRows.enum.map (fun p => (p.1 + 1, p.2))).filter
            (fun p => p.2.length != header.length)).map Prod.fst).take 3
    ∧ (csvStructureAnalyze (header :: dataRows)).problemRows.length
        = min (csvStructureAnalyze (header :: dataRows)).invalidRows 3
    ∧ ((∀ r ∈ dataRows, r.length = header.length) →
        (csvStructureAnalyze (header :: dataRows)).invalidRows = 0
        ∧ (csvStructureAnalyze (header :: dataRows)).problemRows = []) :=
  csvAnalyze_char header dataRows

/-- Witness for C6: header of width 3, data rows with widths 2, 3 and 1:
mismatches at file rows 1 and 3; and a fully well-formed file has zero
invalid rows and no problem rows. -/
theorem analyzer_counts_correct_witness :
    (csvStructureAnalyze [["a","b","c"], ["1","2"], ["1","2","3"], ["1"]]).invalidRows = 2
    ∧ (csvStructureAnalyze [["a","b","c"], ["1","2"], ["1","2","3"], ["1"]]).problemRows = [1, 3]
    ∧ (csvStructureAnalyze [["a","b","c"], ["1","2"], ["1","2","3"], ["1"]]).problemRows.length
        = min 2 3
    ∧ (csvStructureAnalyze [["a","b"], ["1","2"]]).invalidRows = 0
    ∧ (csvStructureAnalyze [["a","b"], ["1","2"]]).problemRows = [] := by
  have h := analyzer_counts_correct ["a","b","c"] [["1","2"], ["1","2","3"], ["1"]]
  have h2 := (analyzer_counts_correct ["a","b"] [["1","2"]]).2.2.2.2 (by decide)
  refine ⟨?_, ?_, ?_, h2.1, h2.2⟩
  · rw [h.1]; decide
  · rw [h.2.2.1]; decide
  · rw [h.2.2.2.1, h.1]; decide

theorem invalidRows_pos_of_mismatch (header : List String)
    (dataRows : List (List String)) (r : List String) (hr : r ∈ dataRows)
    (hlen : r.length ≠ header.length) :
    0 < (csvStructureAnalyze (header :: dataRows)).invalidRows := by
  rcases List.mem_iff_get.mp hr with ⟨i, hi⟩
  have henum : (↑i, r) ∈ dataRows.enum := by
    rw [List.mem_enum_iff_getElem?]
    simp only
    rw [List.getElem?_eq_getElem i.isLt]
    rw [← List.get_eq_getElem, hi]
  have hmem : ((↑i : Nat) + 1, r) ∈ dataRows.enum.map (fun p => (p.1 + 1, p.2)) :=
    List.mem_map.mpr ⟨(↑i, r), henum, rfl⟩
  have hfil : ((↑i : Nat) + 1, r) ∈
      (dataRows.enum.map (fun p => (p.1 + 1, p.2))).filter
        (fun p => p.2.length != header.length) := by
    rw [List.mem_filter]
    exact ⟨hmem, by simpa using hlen⟩
  rw [(csvAnalyze_char header dataRows).1]
  exact List.length_pos.mpr (List.ne_nil_of_mem hfil)

theorem papaErrors_ne_nil_of_mismatch (header : List String)
    (dataRows : List (List String)) (r : List String) (hr : r ∈ dataRows)
    (hlen : r.length ≠ header.length) :
    (papaParseTyped (header :: dataRows)).errors ≠ [] := by
  rcases List.mem_iff_get.mp hr with ⟨i, hi⟩
  have henum : (↑i, r) ∈ dataRows.enum := by
    rw [List.mem_enum_iff_getElem?]
    simp only
    rw [List.getElem?_eq_getElem i.isLt]
    rw [← List.get_eq_getElem, hi]
  intro hnil
  simp only [papaParseTyped] at hnil
  rw [List.filterMap_eq_nil] at hnil
  have := hnil (↑i, r) henum
  rw [if_neg hlen] at this
  exact Option.some_ne_none _ this

theorem papaErrors_nil_iff (header : List String) (dataRows : List (List String)) :
    (papaParseTyped (header :: dataRows)).errors = []
      ↔ ∀ r ∈ dataRows, r.length = header.length := by
  constructor
  · intro hnil r hr
    by_contra hne
    exact papaErrors_ne_nil_of_mismatch header dataRows r hr hne hnil
  · intro hall
    simp only [papaParseTyped]
    rw [List.filterMap_eq_nil]
    intro p hp
    have : p.2 ∈ dataRows := List.snd_mem_of_mem_enum hp
    rw [if_pos (hall p.2 this)]

/-- C1: when any data row has a cell count different from the header, the
run exits with status 1 before any upsert call is made (the submitted batch
list is empty), and between 1 and 3 problem rows are retained for the
diagnostic output. -/
theorem structural_invalid_aborts_before_upsert (header : List String)
    (dataRows : List (List String)) (b : Nat) (ok : Nat → Bool)
    (hmis : ∃ r ∈ dataRows, r.length ≠ header.length) :
    (upsertCsv (header :: dataRows) b ok).exitCode = 1
    ∧ (upsertCsv (header :: dataRows) b ok).upsertCalls = []
    ∧ 1 ≤ (csvStructureAnalyze (header :: dataRows)).problemRows.length
    ∧ (csvStructureAnalyze (header :: dataRows)).problemRows.length ≤ 3 := by
  rcases hmis with ⟨r, hr, hlen⟩
  have hinv := invalidRows_pos_of_mismatch header dataRows r hr hlen
  have herr := papaErrors_ne_nil_of_mismatch header dataRows r hr hlen
  have hcond : ((analyzeErrorsRun (header :: dataRows)
      { data := (papaParseTyped (header :: dataRows)).data
        errors := (papaParseTyped (header :: dataRows)).errors }).2.errors).length > 0 := by
    simp only [analyzeErrorsRun]
    rw [if_neg (Nat.pos_iff_ne_zero.mp hinv)]
    exact List.length_pos.mpr herr
  have hrun : upsertCsv (header :: dataRows) b ok =
      { upsertCalls := [], successCount := 0,
        totalRecords := (papaParseTyped (header :: dataRows)).data.length,
        exitCode := 1, summaryEmitted := false } := by
    simp only [upsertCsv]
    rw [if_pos hcond]
  have hminlen := (csvAnalyze_char header dataRows).2.2.2.1
  refine ⟨by rw [hrun], by rw [hrun], ?_, ?_⟩
  · rw [hminlen]; omega
  · rw [hminlen]; omega

/-- Witness for C1: header `a,b,c` with the single data row `1,2`
(Scenario B). -/
theorem structural_invalid_aborts_before_upsert_witness :
    (upsertCsv [["a","b","c"], ["1","2"]] 50 (fun _ => true)).exitCode = 1
    ∧ (upsertCsv [["a","b","c"], ["1","2"]] 50 (fun _ => true)).upsertCalls = [] := by
  have h := structural_invalid_aborts_before_upsert ["a","b","c"] [["1","2"]] 50
    (fun _ => true) ⟨["1","2"], by decide, by decide⟩
  exact ⟨h.1, h.2.1⟩

/-- C5: when the structural pass counts zero invalid rows, the typed-parse
error list is cleared, the run does not abort (exit status 0), and with at
least one record and a positive batch size the upsert loop is reached. -/
theorem clean_structural_pass_clears_errors (header : List String)
    (dataRows : List (List String)) (b : Nat) (ok : Nat → Bool) (s : PipeState)
    (h0 : (csvStructureAnalyze (header :: dataRows)).invalidRows = 0) :
    (analyzeErrorsRun (header :: dataRows) s).2.errors = []
    ∧ (upsertCsv (header :: dataRows) b ok).exitCode = 0
    ∧ (dataRows ≠ [] → 1 ≤ b →
        (upsertCsv (header :: dataRows) b ok).upsertCalls ≠ []) := by
  have hclear : ∀ t : PipeState, (analyzeErrorsRun (header :: dataRows) t).2.errors = [] := by
    intro t
    simp only [analyzeErrorsRun]
    rw [if_pos h0]
  have hcond : ¬ ((analyzeErrorsRun (header :: dataRows)
      { data := (papaParseTyped (header :: dataRows)).data
        errors := (papaParseTyped (header :: dataRows)).errors }).2.errors).length > 0 := by
    rw [hclear]
    simp
  refine ⟨hclear s, ?_, ?_⟩
  · by_cases hd : (papaParseTyped (header :: dataRows)).data.length = 0
    · have : upsertCsv (header :: dataRows) b ok =
          { upsertCalls := [], successCount := 0, totalRecords := 0,
            exitCode := 0, summaryEmitted := false } := by
        simp only [upsertCsv]
        rw [if_neg hcond, if_pos hd]
      rw [this]
    · have : (upsertCsv (header :: dataRows) b ok).exitCode = 0 := by
        simp only [upsertCsv]
        rw [if_neg hcond, if_neg hd]
      exact this
  · intro hne hb
    have hd : ¬ (papaParseTyped (header :: dataRows)).data.length = 0 := by
      simp only [papaParseTyped, List.length_map]
      exact fun h => hne (List.eq_nil_of_length_eq_zero h)
    have hcalls : (upsertCsv (header :: dataRows) b ok).upsertCalls =
        batches (papaParseTyped (header :: dataRows)).data b := by
      simp only [upsertCsv]
      rw [if_neg hcond, if_neg hd]
    rw [hcalls]
    match hdata : (papaParseTyped (header :: dataRows)).data with
    | [] => rw [hdata] at hd; simp at hd
    | x :: xs =>
      rw [batches_cons x xs b (by omega)]
      exact List.cons_ne_nil _ _

/-- Witness for C5: a well-formed two-column file with one data row and a
stale parse error in the state: the error list is cleared and the run
upserts. -/
theorem clean_structural_pass_clears_errors_witness :
    (analyzeErrorsRun [["a","b"], ["1","2"]]
        { data := [], errors := [ParseError.fieldMismatch 2 1 1] }).2.errors = []
    ∧ (upsertCsv [["a","b"], ["1","2"]] 50 (fun _ => true)).exitCode = 0
    ∧ (upsertCsv [["a","b"], ["1","2"]] 50 (fun _ => true)).upsertCalls ≠ [] := by
  have h := clean_structural_pass_clears_errors ["a","b"] [["1","2"]] 50
    (fun _ => true) { data := [], errors := [ParseError.fieldMismatch 2 1 1] }
    (by decide)
  exact ⟨h.1, h.2.1, h.2.2 (by decide) (by decide)⟩

theorem foldl_success_eq_sum (ok : Nat → Bool) :
    ∀ (ps : List (Nat × List Record)) (a : Nat),
      ps.foldl (fun acc p => if ok p.1 then acc + p.2.length else acc) a
        = a + (ps.map (fun p => if ok p.1 then p.2.length else 0)).sum := by
  intro ps
  induction ps with
  | nil => intro a; simp
  | cons p ps ih =>
    intro a
    rw [List.foldl_cons, List.map_cons, List.sum_cons]
    by_cases h : ok p.1
    · rw [if_pos h, if_pos h, ih]
      omega
    · rw [if_neg h, if_neg h, ih]
      omega

set_option maxRecDepth 100000 in
/-- C3 counterexample: in Scenario C (125 records, batch size 50, only the
second upsert call fails) the summary reports 75 successes, not the 100 the
claim states: the failing second batch holds 50 records, so
125 - 50 = 75 succeed. -/
theorem scenarioC_successCount_not_100 :
    ¬ ((upsertCsv rows125 50 secondBatchFails).successCount = 100) := by
  decide

set_option maxRecDepth 100000 in
/-- C3 amended: a batch whose upsert call errors contributes 0 to
`successCount` while a successful batch contributes its length (and each
batch is submitted exactly once, never retried); in Scenario C the three
calls have sizes 50, 50, 25 in that order and, with only the second call
failing, the summary reports 75 of 125 and the process exits 0. -/
theorem per_batch_error_handling_amended :
    (∀ (bs : List (List Record)) (ok : Nat → Bool),
        successCountOf bs ok
          = (bs.enum.map (fun p => if ok p.1 then p.2.length else 0)).sum)
    ∧ (upsertCsv rows125 50 secondBatchFails).upsertCalls.map List.length = [50, 50, 25]
    ∧ (upsertCsv rows125 50 secondBatchFails).successCount = 75
    ∧ (upsertCsv rows125 50 secondBatchFails).totalRecords = 125
    ∧ (upsertCsv rows125 50 secondBatchFails).exitCode = 0
    ∧ (upsertCsv rows125 50 secondBatchFails).summaryEmitted = true := by
  refine ⟨?_, by decide, by decide, by decide, by decide, by decide⟩
  intro bs ok
  simpa using foldl_success_eq_sum ok bs.enum 0

/-- C4 counterexample: a header-only file yields zero typed records, yet the
run returns normally with exit status 0 (the code `return`s instead of
calling `process.exit(1)`). -/
theorem zero_records_exit_counterexample :
    (papaParseTyped [["a", "b"]]).data = []
    ∧ (upsertCsv [["a", "b"]] 50 (fun _ => true)).exitCode = 0 := by
  decide

/-- C4 amended: when the typed-parse pass produces zero valid records from a
file that has a header row, the run prints an error and returns without
performing any upsert, and the process exits with status 0, not 1; only a
completely empty tokenized file exits 1 (via the caught exception on the
undefined header). -/
theorem zero_records_returns_exit_zero (header : List String)
    (dataRows : List (List String)) (b : Nat) (ok : Nat → Bool)
    (hd : (papaParseTyped (header :: dataRows)).data = []) :
    (upsertCsv (header :: dataRows) b ok).exitCode = 0
    ∧ (upsertCsv (header :: dataRows) b ok).upsertCalls = []
    ∧ (upsertCsv (header :: dataRows) b ok).summaryEmitted = false
    ∧ ∀ (b2 : Nat) (ok2 : Nat → Bool), (upsertCsv [] b2 ok2).exitCode = 1 := by
  have hnil : dataRows = [] := by
    simp only [papaParseTyped] at hd
    exact List.map_eq_nil.mp hd
  subst hnil
  exact ⟨rfl, rfl, rfl, fun b2 ok2 => rfl⟩

/-- Witness for C4 amended: a two-column header-only file. -/
theorem zero_records_returns_exit_zero_witness :
    (papaParseTyped [["a", "b"]]).data = []
    ∧ (upsertCsv [["a", "b"]] 50 (fun _ => true)).exitCode = 0
    ∧ (upsertCsv [["a", "b"]] 50 (fun _ => true)).upsertCalls = [] := by
  have h := zero_records_returns_exit_zero ["a", "b"] [] 50 (fun _ => true) (by decide)
  exact ⟨by decide, h.1, h.2.1⟩

theorem coerceCell_ne_str_empty (c : String) : coerceCell c ≠ Value.str "" := by
  intro hc
  by_cases h : c = ""
  · rw [coerceCell, if_pos h] at hc
    exact Value.noConfusion hc
  · rw [coerceCell, if_neg h, dynamicType] at hc
    split at hc
    · exact Value.noConfusion hc
    · split at hc
      · exact Value.noConfusion hc
      · split at hc
        · exact Value.noConfusion hc
        · exact h (Value.str.inj hc)

/-- C7: the typed-parse transform maps every cell that is exactly the empty
string to null, and no field of any constructed Record holds the empty
string value. -/
theorem empty_cell_becomes_null :
    coerceCell "" = Value.null
    ∧ ∀ (header row : List String) (p : String × Value),
        p ∈ mkRecord header row → p.2 ≠ Value.str "" := by
  refine ⟨rfl, ?_⟩
  intro header row p hp
  rcases List.mem_append.mp hp with h | h
  · rcases List.mem_map.mp h with ⟨q, _, hq⟩
    rw [← hq]
    exact coerceCell_ne_str_empty q.2
  · rcases List.mem_map.mp h with ⟨c, _, hc⟩
    rw [← hc]
    exact coerceCell_ne_str_empty c

/-- Witness for C7: a one-column record built from an empty cell. -/
theorem empty_cell_becomes_null_witness :
    coerceCell "" = Value.null ∧ (("a", Value.null) : String × Value).2 ≠ Value.str "" :=
  ⟨empty_cell_becomes_null.1,
   empty_cell_becomes_null.2 ["a"] [""] ("a", Value.null) (by decide)⟩

/-- C8: if either environment variable is absent, the CLI exits with status
1 and no file event has happened: neither the existence check nor the file
read occurs. -/
theorem missing_env_aborts_before_file_io (u k : Option String) (fe : Bool)
    (rows : List (List String)) (b : Nat) (ok : Nat → Bool)
    (h : u = none ∨ k = none) :
    (cliAction u k fe rows b ok).exitCode = 1
    ∧ (cliAction u k fe rows b ok).events = []
    ∧ CliEvent.fileExistenceCheck ∉ (cliAction u k fe rows b ok).events
    ∧ CliEvent.fileRead ∉ (cliAction u k fe rows b ok).events := by
  have hcond : (isFalsyEnv u || isFalsyEnv k) = true := by
    rcases h with h | h <;> subst h <;> simp [isFalsyEnv]
  have hrun : cliAction u k fe rows b ok = { events := [], exitCode := 1 } := by
    simp only [cliAction]
    rw [if_pos hcond]
  rw [hrun]
  exact ⟨rfl, rfl, by simp, by simp⟩

/-- Witness for C8: missing URL, key present, existing readable file. -/
theorem missing_env_aborts_before_file_io_witness :
    (cliAction none (some "key") true [["a"], ["1"]] 50 (fun _ => true)).exitCode = 1
    ∧ (cliAction none (some "key") true [["a"], ["1"]] 50 (fun _ => true)).events = [] := by
  have h := missing_env_aborts_before_file_io none (some "key") true [["a"], ["1"]] 50
    (fun _ => true) (Or.inl rfl)
  exact ⟨h.1, h.2.1⟩

/-- C9: the structural analysis step leaves the typed record list untouched
(it only rewrites the error list), and whenever batches are submitted their
concatenation is exactly the typed-parse output, so every Record reaching an
upsert call is as produced by the typed-parse pass. -/
theorem analyze_preserves_records :
    (∀ (rows : List (List String)) (s : PipeState),
        (analyzeErrorsRun rows s).2.data = s.data)
    ∧ ∀ (rows : List (List String)) (b : Nat) (ok : Nat → Bool), 1 ≤ b →
        (upsertCsv rows b ok).upsertCalls.flatten = (papaParseTyped rows).data
        ∨ (upsertCsv rows b ok).upsertCalls = [] := by
  constructor
  · intro rows s
    rfl
  · intro rows b ok hb
    match rows with
    | [] =>
      right
      rfl
    | header :: dataRows =>
      by_cases hcond : ((analyzeErrorsRun (header :: dataRows)
          { data := (papaParseTyped (header :: dataRows)).data
            errors := (papaParseTyped (header :: dataRows)).errors }).2.errors).length > 0
      · right
        simp only [upsertCsv]
        rw [if_pos hcond]
      · by_cases hd : (papaParseTyped (header :: dataRows)).data.length = 0
        · right
          simp only [upsertCsv]
          rw [if_neg hcond, if_pos hd]
        · left
          have hcalls : (upsertCsv (header :: dataRows) b ok).upsertCalls =
              batches (papaParseTyped (header :: dataRows)).data b := by
            simp only [upsertCsv]
            rw [if_neg hcond, if_neg hd]
          rw [hcalls]
          exact batches_flatten b hb _ _ le_rfl

/-- Witness for C9: one data row; the state keeps its record list and the
single submitted batch concatenates back to the typed-parse output. -/
theorem analyze_preserves_records_witness :
    (analyzeErrorsRun [["a"], ["1"]]
        { data := [[("a", Value.num "1")]], errors := [] }).2.data
      = [[("a", Value.num "1")]]
    ∧ ((upsertCsv [["a"], ["1"]] 1 (fun _ => true)).upsertCalls.flatten
          = (papaParseTyped [["a"], ["1"]]).data
        ∨ (upsertCsv [["a"], ["1"]] 1 (fun _ => true)).upsertCalls = []) :=
  ⟨analyze_preserves_records.1 [["a"], ["1"]]
      { data := [[("a", Value.num "1")]], errors := [] },
   analyze_preserves_records.2 [["a"], ["1"]] 1 (fun _ => true) (by decide)⟩

theorem loopIters_eq (b : Nat) (hb : 0 < b) :
    ∀ (fuel n i : Nat), n - i ≤ fuel → loopIters n b i = (n - i + b - 1) / b := by
  intro fuel
  induction fuel with
  | zero =>
    intro n i h
    rw [loopIters, dif_neg (by omega : ¬ (i < n ∧ 0 < b))]
    have h0 : n - i = 0 := by omega
    rw [h0, Nat.zero_add]
    exact (Nat.div_eq_of_lt (by omega)).symm
  | succ f ih =>
    intro n i h
    by_cases hin : i < n
    · rw [loopIters, dif_pos ⟨hin, hb⟩]
      rw [ih n (i + b) (by omega)]
      have hsub : n - (i + b) = n - i - b := by omega
      rw [hsub]
      exact (ceil_step (n - i) b hb (by omega)).symm
    · rw [loopIters, dif_neg (by tauto)]
      have h0 : n - i = 0 := by omega
      rw [h0, Nat.zero_add]
      exact (Nat.div_eq_of_lt (by omega)).symm

/-- C10: the batch loop terminates for every record list and `batchSize ≥ 1`
after exactly `ceil(n / batchSize)` iterations (the loop index advances by
`batchSize`), which matches the number of batches produced, and whenever the
loop ran the final summary line is emitted. -/
theorem batch_loop_terminates_ceil_iters (l : List Record) (b : Nat) (hb : 1 ≤ b) :
    loopIters l.length b 0 = (l.length + b - 1) / b
    ∧ (batches l b).length = loopIters l.length b 0
    ∧ ∀ (rows : List (List String)) (ok : Nat → Bool),
        (upsertCsv rows b ok).upsertCalls ≠ [] →
        (upsertCsv rows b ok).summaryEmitted = true := by
  have h1 : loopIters l.length b 0 = (l.length + b - 1) / b := by
    have h := loopIters_eq b hb (l.length) l.length 0 (by omega)
    simpa using h
  refine ⟨h1, ?_, ?_⟩
  · rw [batches_length b hb l.length l le_rfl, h1]
  · intro rows ok hne
    match rows with
    | [] => exact absurd rfl hne
    | header :: dataRows =>
      by_cases hcond : ((analyzeErrorsRun (header :: dataRows)
          { data := (papaParseTyped (header :: dataRows)).data
            errors := (papaParseTyped (header :: dataRows)).errors }).2.errors).length > 0
      · exfalso
        apply hne
        simp only [upsertCsv]
        rw [if_pos hcond]
      · by_cases hd : (papaParseTyped (header :: dataRows)).data.length = 0
        · exfalso
          apply hne
          simp only [upsertCsv]
          rw [if_neg hcond, if_pos hd]
        · simp only [upsertCsv]
          rw [if_neg hcond, if_neg hd]

/-- Witness for C10: 5 records with batch size 2 give 3 loop iterations, and
a concrete two-row run emits its summary. -/
theorem batch_loop_terminates_ceil_iters_witness :
    loopIters 5 2 0 = (5 + 2 - 1) / 2
    ∧ (upsertCsv [["a"], ["1"], ["2"]] 2 (fun _ => true)).summaryEmitted = true := by
  have h := batch_loop_terminates_ceil_iters
    [[("a", Value.null)], [("b", Value.null)], [("c", Value.null)],
     [("d", Value.null)], [("e", Value.null)]] 2 (by decide)
  refine ⟨by simpa using h.1, ?_⟩
  refine h.2.2 [["a"], ["1"], ["2"]] (fun _ => true) ?_
  have hlen : (upsertCsv [["a"], ["1"], ["2"]] 2 (fun _ => true)).upsertCalls.length = 1 := by
    decide
  intro hcalls
  rw [hcalls] at hlen
  exact Nat.noConfusion hlen

end SupabaseUpsert
